import Mathlib

/-! PageRank: sparse matrix (CSR) and driver.

A shallow embedding of `include/sparse_matrix.h` and of the driver in
`src/main.cpp`, followed by the properties established about them.

Conventions of the embedding.

* `int` coordinates and dimensions are `Int`.  Row offsets (`ia_`) start at
  zero and are only ever incremented, so they are `Nat`, as are positions in
  the arrays.
* `std::vector` is `List`.  `a_` holds pointers to heap entries, each obtained
  from its own `new`; the list holds the entries themselves.
* `operator[]` past the end of a vector has no defined result in C++.  Every
  element access of `ia_`, `ja_` and `a_` past the end ends the operation with
  the outcome `Error.undefinedRead`; no value is invented for it.
* Loops are structural recursions on a fuel argument that is initialised to
  the exact number of iterations the loop bound allows.
* Offsets and positions count stored entries, each a heap object of its own;
  they are taken to stay below `2^31`, and no wrap-around is modelled.
-/

set_option autoImplicit false

namespace PageRank

/-! ## Entry -/

/-- Matrix entry: the four private fields of `class Entry`. -/
structure Entry (T : Type) where
  /-- row index -/
  i_ : Int
  /-- column index -/
  j_ : Int
  /-- entry value -/
  v_ : T
  /-- true if the entry is empty -/
  is_empty_ : Bool
deriving DecidableEq

namespace Entry

variable {T : Type}

/-- Constructor `Entry(int i, int j)`: value-initialised `v_`, empty. -/
def ofCoord [Zero T] (i j : Int) : Entry T :=
  { i_ := i, j_ := j, v_ := 0, is_empty_ := true }

/-- Constructor `Entry(int i, int j, T v)`: not empty. -/
def ofValue (i j : Int) (v : T) : Entry T :=
  { i_ := i, j_ := j, v_ := v, is_empty_ := false }

/-- Accessor `I()`. -/
def I (e : Entry T) : Int := e.i_

/-- Accessor `J()`; the source returns `i_` here. -/
def J (e : Entry T) : Int := e.i_

/-- Accessor `V()`. -/
def V (e : Entry T) : T := e.v_

/-- Accessor `IsEmpty()`. -/
def IsEmpty (e : Entry T) : Bool := e.is_empty_

/-- Mutator `SetEmpty()`. -/
def SetEmpty [Zero T] (e : Entry T) : Entry T :=
  { e with is_empty_ := true, v_ := 0 }

/-- Mutator `SetV(T v)`. -/
def SetV (e : Entry T) (v : T) : Entry T :=
  { e with is_empty_ := false, v_ := v }

end Entry

/-! ## SparseMatrix -/

/-- How a member function of `SparseMatrix` fails. -/
inductive Error where
  /-- the `std::out_of_range` thrown by `Get` -/
  | outOfRange
  /-- an element access of a vector past its end: undefined behaviour -/
  | undefinedRead
deriving DecidableEq

/-- Sparse matrix in CSR format: the five private fields of
`class SparseMatrix`. -/
structure SparseMatrix (T : Type) where
  /-- number of rows -/
  m_ : Int
  /-- number of columns -/
  n_ : Int
  /-- nonzero entries -/
  a_ : List (Entry T)
  /-- indices in JA for each row -/
  ia_ : List Nat
  /-- column indices of elements in A -/
  ja_ : List Int
deriving DecidableEq

namespace SparseMatrix

variable {T : Type}

/-- Constructor `SparseMatrix(int m, int n)`: `a_()`, `ia_(m + 1)`, `ja_()`. -/
def new (m n : Int) : SparseMatrix T :=
  { m_ := m, n_ := n, a_ := [], ia_ := List.replicate (m + 1).toNat 0, ja_ := [] }

/-- The read `ja_[pos]`; `none` when `pos` is past the end of `ja_`. -/
def readJA (ja : List Int) (pos : Nat) : Option Int := ja[pos]?

/-- The read `ia_[k]`; `none` when `k` is outside `ia_`. -/
def readIA (ia : List Nat) (k : Int) : Option Nat :=
  if k < 0 then none else ia[k.toNat]?

/-- The loop of `Get`:
`for (pos = ia_[i]; pos < ia_[i + 1]; ++pos) if (ja_[pos] == j) return a_[pos];`
followed by `return new Entry<T>(i, j)`. -/
def getLoop [Zero T] (s : SparseMatrix T) (i j : Int) (hi : Nat) :
    Nat → Nat → Except Error (Entry T)
  | 0, _ => .ok (Entry.ofCoord i j)
  | fuel + 1, pos =>
    if pos < hi then
      match readJA s.ja_ pos with
      | none => .error Error.undefinedRead
      | some c =>
        if c = j then
          match s.a_[pos]? with
          | some e => .ok e
          | none => .error Error.undefinedRead
        else getLoop s i j hi fuel (pos + 1)
    else .ok (Entry.ofCoord i j)

/-- Method `Get(int i, int j)`. -/
def Get [Zero T] (s : SparseMatrix T) (i j : Int) : Except Error (Entry T) :=
  if i < 0 ∨ i ≥ s.m_ ∨ j < 0 ∨ j ≥ s.n_ then .error Error.outOfRange
  else
    match readIA s.ia_ i, readIA s.ia_ (i + 1) with
    | some lo, some hi => getLoop s i j hi (hi - lo) lo
    | _, _ => .error Error.undefinedRead

/-- The first loop of `Set`:
`while (pos < ia_[i + 1] && ja_[pos] != j) pos++;` giving the final `pos`.
The read `ja_[pos]` is made only when `pos < ia_[i + 1]` holds. -/
def scanLoop (ja : List Int) (j : Int) (hi : Nat) : Nat → Nat → Except Error Nat
  | 0, pos => .ok pos
  | fuel + 1, pos =>
    if pos < hi then
      match readJA ja pos with
      | none => .error Error.undefinedRead
      | some c => if c ≠ j then scanLoop ja j hi fuel (pos + 1) else .ok pos
    else .ok pos

/-- The loop `for (int r = i + 1; r <= m_; ++r) ia_[r] += 1;`. -/
def bumpLoop (m : Int) : Nat → Int → List Nat → Except Error (List Nat)
  | 0, _, ia => .ok ia
  | fuel + 1, r, ia =>
    if r ≤ m then
      if r.toNat < ia.length then bumpLoop m fuel (r + 1) (ia.modify (fun x => x + 1) r.toNat)
      else .error Error.undefinedRead
    else .ok ia

/-- The loop of the `else` branch of `Set`:
`for (pos = ia_[i]; pos < ia_[i + 1]; ++pos) if (ja_[pos] == j) { a_[pos]->SetV(v); return; }`. -/
def overwriteLoop (ja : List Int) (j : Int) (v : T) (hi : Nat) :
    Nat → Nat → List (Entry T) → Except Error (List (Entry T))
  | 0, _, a => .ok a
  | fuel + 1, pos, a =>
    if pos < hi then
      match readJA ja pos with
      | none => .error Error.undefinedRead
      | some c =>
        if c = j then
          match a[pos]? with
          | some _ => .ok (a.modify (fun e => e.SetV v) pos)
          | none => .error Error.undefinedRead
        else overwriteLoop ja j v hi fuel (pos + 1) a
    else .ok a

/-- The body of `Set` once `ia_[i]` and `ia_[i + 1]` are read as `lo` and
`hi`: the scan, the test `if (ja_[pos] != j)`, which reads `ja_[pos]` whatever
`pos` the scan ended at, and the two branches. -/
def setBody (s : SparseMatrix T) (i j : Int) (v : T) (lo hi : Nat) :
    Except Error (SparseMatrix T) :=
  match scanLoop s.ja_ j hi (hi - lo) lo with
  | .error e => .error e
  | .ok pos =>
    match readJA s.ja_ pos with
    | none => .error Error.undefinedRead
    | some c =>
      if c ≠ j then
        match bumpLoop s.m_ (s.m_ - i).toNat (i + 1) s.ia_ with
        | .error e => .error e
        | .ok ia =>
          .ok { s with
            a_ := s.a_.insertIdx pos (Entry.ofValue i j v)
            ja_ := s.ja_.insertIdx pos j
            ia_ := ia }
      else
        match overwriteLoop s.ja_ j v hi (hi - lo) lo s.a_ with
        | .error e => .error e
        | .ok a => .ok { s with a_ := a }

/-- Method `Set(int i, int j, T v)`: the matrix after the call, or the
undefined element access that the call runs into. -/
def Set (s : SparseMatrix T) (i j : Int) (v : T) : Except Error (SparseMatrix T) :=
  match readIA s.ia_ i, readIA s.ia_ (i + 1) with
  | some lo, some hi => setBody s i j v lo hi
  | _, _ => .error Error.undefinedRead

end SparseMatrix

/-- One call `Set(i, j, v)`. -/
structure Call (T : Type) where
  /-- row argument -/
  i : Int
  /-- column argument -/
  j : Int
  /-- value argument -/
  v : T
deriving DecidableEq

/-- The coordinates of the call lie in `[0, m) × [0, n)`. -/
def Call.InRange {T : Type} (m n : Int) (c : Call T) : Prop :=
  0 ≤ c.i ∧ c.i < m ∧ 0 ≤ c.j ∧ c.j < n

/-- One more call on the outcome so far: a call is made only on a matrix that
the calls before it produced. -/
def step {T : Type} (r : Except Error (SparseMatrix T)) (c : Call T) :
    Except Error (SparseMatrix T) :=
  match r with
  | .ok s => s.Set c.i c.j c.v
  | .error e => .error e

/-- The outcome of the calls `cs`, in order, on `SparseMatrix(m, n)`: the
matrix they produce, or the failure of the first call that fails. -/
def run {T : Type} (m n : Int) (cs : List (Call T)) : Except Error (SparseMatrix T) :=
  cs.foldl step (.ok (SparseMatrix.new m n))

/-- The CSR well-formedness of a matrix state: shape of the offset array,
and each row's range of the parallel arrays `a_` and `ja_`. -/
structure SparseMatrix.WF {T : Type} (s : SparseMatrix T) : Prop where
  m_nonneg : 0 ≤ s.m_
  ia_len : (s.ia_.length : Int) = s.m_ + 1
  ia_mono : ∀ k : Nat, (k : Int) < s.m_ → s.ia_.getD k 0 ≤ s.ia_.getD (k + 1) 0
  ia_zero : s.ia_.getD 0 0 = 0
  ia_last : s.ia_.getD s.m_.toNat 0 = s.a_.length
  ja_len : s.ja_.length = s.a_.length
  rows : ∀ k pos : Nat, (k : Int) < s.m_ → s.ia_.getD k 0 ≤ pos → pos < s.ia_.getD (k + 1) 0 →
    ∃ e, s.a_[pos]? = some e ∧ e.i_ = (k : Int) ∧ s.ja_[pos]? = some e.j_

/-- An entry is stored at `(i, j)`: column `j` occurs in row `i`'s range of `ja_`. -/
def SparseMatrix.Stored {T : Type} (s : SparseMatrix T) (i j : Int) : Prop :=
  ∃ lo hi pos : Nat, SparseMatrix.readIA s.ia_ i = some lo ∧
    SparseMatrix.readIA s.ia_ (i + 1) = some hi ∧ lo ≤ pos ∧ pos < hi ∧ s.ja_[pos]? = some j

/-- The CSR state of the `2 × 1` matrix that holds the value 5 at `(1, 0)` and
nothing else: `a_ = [(1, 0, 5)]`, `ia_ = [0, 0, 1]`, `ja_ = [0]`. -/
def rowOneState : SparseMatrix Int :=
  { m_ := 2, n_ := 1, a_ := [Entry.ofValue 1 0 5], ia_ := [0, 0, 1], ja_ := [0] }

/-! ## The driver of `main.cpp`

`class PageRank` (`pagerank.h`) and `Progress` (`util.h`) are not among the
sources; the driver takes what it uses of them as parameters. `double` values
are exact rationals. -/

/-- The constant `THRESHOLD`, defined as `10e-4` in `main.cpp`. -/
def THRESHOLD : ℚ := 10 / 10000

/-- What the driver uses of `class PageRank` and of `util.h`: the two update
methods, each taking the dampening factor and the engine state `σ` and giving
the new rank vector and the new engine state, and the convergence check. -/
structure Engine (σ V : Type) where
  /-- method `PageRank::PullUpdate(double)` -/
  PullUpdate : ℚ → σ → V × σ
  /-- method `PageRank::PushUpdate(double)` -/
  PushUpdate : ℚ → σ → V × σ
  /-- function `Progress(r1, r2, threshold)` -/
  Progress : V → V → ℚ → Bool

/-- The member-function pointer `update` chosen from `style`
(`main.cpp`, lines 77-82). -/
def selectUpdate {σ V : Type} (E : Engine σ V) (style : String) : ℚ → σ → V × σ :=
  if style = "pull" then E.PullUpdate else E.PushUpdate

/-- The loop `while (Progress(r1, r2, THRESHOLD)) { r1 = pr->PullUpdate(d);
r2 = pr->PullUpdate(d); }` (`main.cpp`, lines 86-89), run for at most `fuel`
tests of its condition; `none` when the fuel runs out. -/
def convergenceLoop {σ V : Type} (E : Engine σ V) (d : ℚ) :
    Nat → V → V → σ → Option (V × V × σ)
  | 0, _, _, _ => none
  | fuel + 1, r1, r2, pr =>
    if E.Progress r1 r2 THRESHOLD then
      convergenceLoop E d fuel (E.PullUpdate d pr).1
        (E.PullUpdate d (E.PullUpdate d pr).2).1 (E.PullUpdate d (E.PullUpdate d pr).2).2
    else some (r1, r2, pr)

/-- Lines 76-89 of `main.cpp`: choose `update`, compute `r1` and `r2` with it,
then run the convergence loop. -/
def drive {σ V : Type} (E : Engine σ V) (fuel : Nat) (style : String) (d : ℚ) (pr : σ) :
    Option (V × V × σ) :=
  convergenceLoop E d fuel (selectUpdate E style d pr).1
    (selectUpdate E style d (selectUpdate E style d pr).2).1
    (selectUpdate E style d (selectUpdate E style d pr).2).2

/-- An engine whose state is the list of the names of the updates applied so
far, whose rank vector is the number of updates applied, and whose check asks
for more as long as fewer than four updates were made. -/
def traceEngine : Engine (List String) Nat where
  PullUpdate := fun _ log => (log.length + 1, log ++ ["PullUpdate"])
  PushUpdate := fun _ log => (log.length + 1, log ++ ["PushUpdate"])
  Progress := fun _ r2 _ => decide (r2 < 4)

/-- The sum of lines 93-96 of `main.cpp`: `sum = 0.0; for (...) sum += *it;`. -/
def sumRanks (ranks : List ℚ) : ℚ := ranks.foldl (fun sum x => sum + x) 0

/-- The final normalization, lines 91-99 of `main.cpp`: every entry is
divided by the sum of all entries. -/
def normalizeRanks (ranks : List ℚ) : List ℚ := ranks.map (fun x => x / sumRanks ranks)

/-! ## The two update styles

`PullUpdate` and `PushUpdate` are defined in `pagerank.h`, which is not among
the sources. -/

/-- Modelled from the spec: the transition matrix of an `n`-node graph as
the engine sees it (`pagerank.h` is missing). `weight j i = some w` says that
the matrix stores an entry for the edge `j → i` with transition weight `w`;
`none` says that there is no such edge. -/
structure Transition where
  /-- node count -/
  n : Nat
  /-- stored weight of the edge `j → i`, if any -/
  weight : Nat → Nat → Option ℚ

/-- Modelled from the spec: the out-neighbours of node `j` (`pagerank.h` is
missing), the nodes `i` with an edge `j → i`, in index order. -/
def Transition.outNeighbors (W : Transition) (j : Nat) : List Nat :=
  (List.range W.n).filter (fun i => (W.weight j i).isSome)

/-- Modelled from the spec: `OutDegree(j)` (`pagerank.h` is missing), the
number of out-neighbours of `j`. -/
def Transition.OutDegree (W : Transition) (j : Nat) : Nat := (W.outNeighbors j).length

/-- Modelled from the spec: `PullUpdate(d)` (`pagerank.h` is missing). "For
each node `i`, computes a new rank as
`r'_i = (1 - d) / n + d * Σ_{j has an edge into i} r_j * weight(j → i)`."
Returns a new vector of length `n`. -/
def PullUpdate (W : Transition) (r : List ℚ) (d : ℚ) : List ℚ :=
  (List.range W.n).map (fun i =>
    (1 - d) / W.n +
      d * ((List.range W.n).filterMap (fun j =>
        (W.weight j i).map (fun w => r.getD j 0 * w))).sum)

/-- Modelled from the spec: the inner step of `PushUpdate` for one node `j`
(`pagerank.h` is missing): "distributes `d * r_j / OutDegree(j)` to every
out-neighbor `i`". -/
def pushFrom (W : Transition) (r : List ℚ) (d : ℚ) (acc : List ℚ) (j : Nat) : List ℚ :=
  (W.outNeighbors j).foldl
    (fun acc i => acc.modify (fun x => x + d * r.getD j 0 / W.OutDegree j) i) acc

/-- Modelled from the spec: `PushUpdate(d)` (`pagerank.h` is missing). "For
each node `j`, distributes `d * r_j / OutDegree(j)` to every out-neighbor `i`,
and separately adds `(1 - d) / n` to every node once." Returns a new vector of
length `n`. -/
def PushUpdate (W : Transition) (r : List ℚ) (d : ℚ) : List ℚ :=
  ((List.range W.n).foldl (pushFrom W r d) (List.replicate W.n 0)).map
    (fun x => x + (1 - d) / W.n)

/-- Every stored weight is the uniform share `1 / OutDegree(j)` of its source
node: the transition matrix of an unweighted graph. -/
def Transition.Uniform (W : Transition) : Prop :=
  ∀ j i w, j < W.n → i < W.n → W.weight j i = some w → w = 1 / (W.OutDegree j : ℚ)

/-- A two-node transition matrix with the weighted row `0 → 0` (1/3),
`0 → 1` (2/3) and the row `1 → 0` (1). -/
def weightedExample : Transition where
  n := 2
  weight := fun j i =>
    if j = 0 ∧ i = 0 then some (1 / 3)
    else if j = 0 ∧ i = 1 then some (2 / 3)
    else if j = 1 ∧ i = 0 then some 1
    else none

/-- A three-node transition matrix with uniform weights: `0 → 1` and `0 → 2`
(1/2 each), `1 → 0` (1), and node 2 without outgoing edges. -/
def uniformExample : Transition where
  n := 3
  weight := fun j i =>
    if j = 0 ∧ (i = 1 ∨ i = 2) then some (1 / 2)
    else if j = 1 ∧ i = 0 then some 1
    else none

/-! ## Further definitions: entry mutators, reads of `Set`, `main` -/

/-- The emptiness invariant of an entry: `IsEmpty()` implies that `V()` is
the zero value of the value type. -/
def Entry.Inv {T : Type} [Zero T] (e : Entry T) : Prop := e.IsEmpty = true → e.V = 0

/-- The mutating member functions of `class Entry`: a call of `SetEmpty()` or
a call of `SetV(v)`. -/
inductive EntryOp (T : Type) where
  /-- a call `SetEmpty()` -/
  | setEmpty
  /-- a call `SetV(v)` -/
  | setV (v : T)

/-- The entry after a call of a mutator. -/
def EntryOp.apply {T : Type} [Zero T] : EntryOp T → Entry T → Entry T
  | .setEmpty, e => e.SetEmpty
  | .setV v, e => e.SetV v

/-- The positions at which the first loop of `Set` reads `ja_`: every test of
`pos < ia_[i + 1] && ja_[pos] != j` whose first operand holds reads `ja_[pos]`. -/
def SparseMatrix.scanReads (ja : List Int) (j : Int) (hi : Nat) : Nat → Nat → List Nat
  | 0, _ => []
  | fuel + 1, pos =>
    if pos < hi then
      pos :: (match SparseMatrix.readJA ja pos with
        | some c => if c ≠ j then SparseMatrix.scanReads ja j hi fuel (pos + 1) else []
        | none => [])
    else []

/-- The positions at which the loop of the `else` branch of `Set` reads `ja_`. -/
def SparseMatrix.overwriteReads (ja : List Int) (j : Int) (hi : Nat) : Nat → Nat → List Nat
  | 0, _ => []
  | fuel + 1, pos =>
    if pos < hi then
      pos :: (match SparseMatrix.readJA ja pos with
        | some c => if c = j then [] else SparseMatrix.overwriteReads ja j hi fuel (pos + 1)
        | none => [])
    else []

/-- All positions at which `Set(i, j, v)` reads `ja_`, in order, up to and
including a read past the end if there is one: the reads of the first loop,
the read `ja_[pos]` of the test `if (ja_[pos] != j)` after it, and, in the
`else` branch, the reads of its loop. -/
def SparseMatrix.SetReadsJA {T : Type} (s : SparseMatrix T) (i j : Int) : List Nat :=
  match SparseMatrix.readIA s.ia_ i, SparseMatrix.readIA s.ia_ (i + 1) with
  | some lo, some hi =>
    SparseMatrix.scanReads s.ja_ j hi (hi - lo) lo ++
      (match SparseMatrix.scanLoop s.ja_ j hi (hi - lo) lo with
        | .error _ => []
        | .ok pos =>
          pos :: (match SparseMatrix.readJA s.ja_ pos with
            | none => []
            | some c =>
              if c ≠ j then [] else SparseMatrix.overwriteReads s.ja_ j hi (hi - lo) lo))
  | _, _ => []

/-- The body of the convergence loop (`main.cpp`, lines 87-88) as a step on
the triple of `r1`, `r2` and the engine state. -/
def loopBody {σ V : Type} (E : Engine σ V) (d : ℚ) (st : V × V × σ) : V × V × σ :=
  ((E.PullUpdate d st.2.2).1, (E.PullUpdate d (E.PullUpdate d st.2.2).2).1,
    (E.PullUpdate d (E.PullUpdate d st.2.2).2).2)

/-- Lines 84-85 of `main.cpp`: `r1` and `r2` computed with the selected
update, and the engine state after them. -/
def initialPair {σ V : Type} (E : Engine σ V) (style : String) (d : ℚ) (pr : σ) : V × V × σ :=
  ((selectUpdate E style d pr).1, (selectUpdate E style d (selectUpdate E style d pr).2).1,
    (selectUpdate E style d (selectUpdate E style d pr).2).2)

/-- The engine `E` with a record added to its state: every update appends the
rank vector it produces to the list of the vectors produced so far. -/
def logged {σ V : Type} (E : Engine σ V) : Engine (σ × List V) V where
  PullUpdate := fun d st =>
    ((E.PullUpdate d st.1).1, ((E.PullUpdate d st.1).2, st.2 ++ [(E.PullUpdate d st.1).1]))
  PushUpdate := fun d st =>
    ((E.PushUpdate d st.1).1, ((E.PushUpdate d st.1).2, st.2 ++ [(E.PushUpdate d st.1).1]))
  Progress := E.Progress

/-- An engine over rank vectors whose state is the list of the names of the
updates applied so far; every update gives the vector `[1]`, and the check
never asks for more. -/
def traceEngineQ : Engine (List String) (List ℚ) where
  PullUpdate := fun _ log => ([1], log ++ ["PullUpdate"])
  PushUpdate := fun _ log => ([1], log ++ ["PushUpdate"])
  Progress := fun _ _ _ => false

/-- The value `EXIT_FAILURE` of `<cstdlib>`. -/
def EXIT_FAILURE : Int := 1

/-- The value `EXIT_SUCCESS` of `<cstdlib>`. -/
def EXIT_SUCCESS : Int := 0

/-- The local variables of `main` that the argument loop fills
(`main.cpp`, lines 31-34). -/
structure Args where
  /-- variable `filename` -/
  filename : String
  /-- variable `filefmt` -/
  filefmt : String
  /-- variable `style` -/
  style : String
  /-- variable `d`, the dampening factor -/
  d : ℚ

/-- How the argument loop of `main` ends. -/
inductive Parsed where
  /-- the loop printed the usage and `main` returned `EXIT_FAILURE`
  (lines 45-46 and 51-52) -/
  | usage
  /-- an option was the last argument, so that `argv[++i]` is the null pointer
  that ends `argv`, or `std::stod` threw -/
  | undefined
  /-- the loop ran to `i == argc` -/
  | done (a : Args)

/-- The argument loop of `main` (lines 37-54) on the arguments from `argv[i]`
on; an option consumes the argument after it through `argv[++i]`. `stod` is
`std::stod`, `none` when it throws. -/
def parseLoop (stod : String → Option ℚ) : Args → List String → Parsed
  | a, [] => Parsed.done a
  | a, opt :: rest =>
    if opt = "--filename" then
      match rest with
      | [] => Parsed.undefined
      | v :: rest' => parseLoop stod { a with filename := v } rest'
    else if opt = "--fmt" then
      match rest with
      | [] => Parsed.undefined
      | v :: rest' => parseLoop stod { a with filefmt := v } rest'
    else if opt = "--style" then
      match rest with
      | [] => Parsed.undefined
      | v :: rest' =>
        if v ≠ "pull" ∧ v ≠ "push" then Parsed.usage
        else parseLoop stod { a with style := v } rest'
    else if opt = "--df" then
      match rest with
      | [] => Parsed.undefined
      | v :: rest' =>
        match stod v with
        | none => Parsed.undefined
        | some d => parseLoop stod { a with d := d } rest'
    else Parsed.usage

/-- How a run of `main` ends. -/
inductive Outcome (σ : Type) where
  /-- usage printed and `EXIT_FAILURE` returned at line 46, 52 or 57, all of
  them before the `PageRank` object is created at line 65 -/
  | usageExit
  /-- the argument loop left defined behaviour -/
  | undefinedArgs
  /-- `InitGraph` threw and `EXIT_FAILURE` was returned at line 73 -/
  | initFailed
  /-- the convergence loop was still running when the fuel ran out -/
  | running
  /-- `EXIT_SUCCESS` returned at line 104, with the final engine state and the
  normalized ranks -/
  | finished (pr : σ) (ranks : List ℚ)

/-- The value returned by `main`, when it returns. -/
def Outcome.exitCode {σ : Type} : Outcome σ → Option Int
  | .usageExit => some EXIT_FAILURE
  | .undefinedArgs => none
  | .initFailed => some EXIT_FAILURE
  | .running => none
  | .finished _ _ => some EXIT_SUCCESS

/-- Whether the run got as far as the call of `InitGraph` at line 68, after
which alone updates are made. -/
def Outcome.reachedInit {σ : Type} : Outcome σ → Bool
  | .usageExit => false
  | .undefinedArgs => false
  | .initFailed => true
  | .running => true
  | .finished _ _ => true

/-- The function `main` of `main.cpp` on `argv` (with `argv[0]` the program
name). `InitGraph`, the engine `E` and `PageRanks` stand for the members of
`class PageRank`; `InitGraph` gives `none` when it throws. -/
def main {σ : Type} (stod : String → Option ℚ) (InitGraph : String → String → Option σ)
    (E : Engine σ (List ℚ)) (PageRanks : σ → List ℚ) (fuel : Nat) (argv : List String) :
    Outcome σ :=
  match parseLoop stod { filename := "", filefmt := "", style := "", d := 85 / 100 }
      argv.tail with
  | Parsed.usage => Outcome.usageExit
  | Parsed.undefined => Outcome.undefinedArgs
  | Parsed.done a =>
    if a.filename = "" ∨ a.filefmt = "" ∨ a.style = "" then Outcome.usageExit
    else
      match InitGraph a.filename a.filefmt with
      | none => Outcome.initFailed
      | some pr =>
        match drive E fuel a.style a.d pr with
        | none => Outcome.running
        | some res => Outcome.finished res.2.2 (normalizeRanks (PageRanks res.2.2))

/-! ## The fresh matrix and the first `Set` -/

namespace SparseMatrix

variable {T : Type}

theorem readIA_new_eq_zero (m n k : Int) (x : Nat)
    (h : readIA (SparseMatrix.new m n : SparseMatrix T).ia_ k = some x) : x = 0 := by
  simp only [readIA, SparseMatrix.new] at h
  split_ifs at h
  rw [List.getElem?_replicate] at h
  split_ifs at h
  exact (Option.some.inj h).symm

theorem readIA_new_of_le (m n k : Int) (h0 : 0 ≤ k) (h1 : k ≤ m) :
    readIA (SparseMatrix.new m n : SparseMatrix T).ia_ k = some 0 := by
  have hlt : k.toNat < (m + 1).toNat := by omega
  simp only [readIA, SparseMatrix.new, List.getElem?_replicate]
  rw [if_neg (by omega), if_pos hlt]

/-- On the freshly constructed matrix every call of `Set` runs into an
undefined element access: for an in-range row the scan is not entered and the
test after it reads `ja_[0]` of the empty `ja_`. -/
theorem Set_new_undefined (m n i j : Int) (v : T) :
    (SparseMatrix.new m n : SparseMatrix T).Set i j v = .error Error.undefinedRead := by
  unfold SparseMatrix.Set
  cases hlo : readIA (SparseMatrix.new m n : SparseMatrix T).ia_ i with
  | none => rfl
  | some lo =>
    cases hhi : readIA (SparseMatrix.new m n : SparseMatrix T).ia_ (i + 1) with
    | none => rfl
    | some hi =>
      have h1 := readIA_new_eq_zero m n i lo hlo
      have h2 := readIA_new_eq_zero m n (i + 1) hi hhi
      subst h1 h2
      rfl

/-- On the freshly constructed matrix `Get` at an in-range coordinate returns
the empty entry `Entry(i, j)`. -/
theorem Get_new [Zero T] (m n i j : Int) (hi0 : 0 ≤ i) (hi1 : i < m) (hj0 : 0 ≤ j)
    (hj1 : j < n) :
    (SparseMatrix.new m n : SparseMatrix T).Get i j = .ok (Entry.ofCoord i j) := by
  have hguard : ¬ (i < 0 ∨ i ≥ (SparseMatrix.new m n : SparseMatrix T).m_ ∨ j < 0 ∨
      j ≥ (SparseMatrix.new m n : SparseMatrix T).n_) := by
    simp only [SparseMatrix.new]; omega
  unfold SparseMatrix.Get
  rw [if_neg hguard, readIA_new_of_le m n i hi0 (by omega),
    readIA_new_of_le m n (i + 1) (by omega) (by omega)]
  rfl

end SparseMatrix

theorem foldl_step_error {T : Type} (cs : List (Call T)) (e : Error) :
    cs.foldl step (.error e) = .error e := by
  induction cs with
  | nil => rfl
  | cons c cs ih => exact ih

/-- No sequence of calls gets past its first `Set`. -/
theorem run_cons_undefined {T : Type} (m n : Int) (c : Call T) (cs : List (Call T)) :
    run m n (c :: cs) = .error Error.undefinedRead := by
  simp only [run, List.foldl_cons, step, SparseMatrix.Set_new_undefined]
  exact foldl_step_error cs _

/-- The only matrix that calls of `Set` on `SparseMatrix(m, n)` produce is
`SparseMatrix(m, n)` itself, by the empty sequence. -/
theorem run_ok_iff {T : Type} (m n : Int) (cs : List (Call T)) (s : SparseMatrix T)
    (h : run m n cs = .ok s) : cs = [] ∧ s = SparseMatrix.new m n := by
  cases cs with
  | nil =>
    simp only [run, List.foldl_nil, Except.ok.injEq] at h
    exact ⟨rfl, h.symm⟩
  | cons c cs =>
    rw [run_cons_undefined] at h
    exact Except.noConfusion h

theorem rowOneState_WF : rowOneState.WF := by
  refine ⟨by decide, by decide, ?_, by decide, by decide, by decide, ?_⟩
  · intro k hk
    have hk2 : k < 2 := by
      have : (k : Int) < 2 := hk
      omega
    interval_cases k <;> decide
  · intro k pos hk h1 h2
    have hk2 : k < 2 := by
      have : (k : Int) < 2 := hk
      omega
    interval_cases k
    · have : pos < 0 := h2
      omega
    · have hpos : pos < 1 := h2
      have : pos = 0 := by omega
      subst this
      exact ⟨Entry.ofValue 1 0 5, rfl, rfl, rfl⟩

theorem rowOneState_not_stored : ¬ rowOneState.Stored 0 0 := by
  rintro ⟨lo, hi, pos, _, h2, _, h4, _⟩
  have : hi = 0 := by
    have h : SparseMatrix.readIA rowOneState.ia_ (0 + 1) = some 0 := rfl
    rw [h] at h2
    exact (Option.some.inj h2).symm
  omega

/-! ## Claims about `SparseMatrix` -/

/-- C1 (the code departs from the claim). In the well-formed CSR state
`a_ = [(1, 0, 5)]`, `ia_ = [0, 0, 1]`, `ja_ = [0]` of a `2 × 1` matrix, the
in-range coordinate `(0, 0)` has no stored entry. `Set(0, 0, 7)` leaves the
scan at `pos = ia_[1] = 0` and tests `ja_[0]`, which is inside `ja_` but is
row 1's column and equals `0`; it takes the overwrite branch and stores
nothing (the state is unchanged), so `Get(0, 0)` still returns an empty entry.
Built through the constructor, the same two calls do not get that far: the
first `Set` already ends in the read of `ja_` past its end. -/
theorem C1_get_after_set_still_empty :
    rowOneState.WF ∧
    ¬ rowOneState.Stored 0 0 ∧
    rowOneState.Set 0 0 7 = .ok rowOneState ∧
    rowOneState.Get 0 0 = .ok (Entry.ofCoord 0 0) ∧
    (Entry.ofCoord 0 0 : Entry Int).IsEmpty = true ∧
    run 2 1 [(⟨1, 0, 5⟩ : Call Int), ⟨0, 0, 7⟩] = .error Error.undefinedRead :=
  ⟨rowOneState_WF, rowOneState_not_stored, rfl, rfl, rfl, rfl⟩

/-- C4. On a matrix produced from `SparseMatrix(m, n)` by `Set` calls with
in-range coordinates, `Get(i, j)` at an in-range coordinate that no call of
the sequence was made at returns an entry with `IsEmpty() = true` and the
zero value. (`Get` is a `const` method, embedded as a function of the state:
it has no state to return.) -/
theorem C4_get_never_set {T : Type} [Zero T] (m n : Int) (cs : List (Call T))
    (s : SparseMatrix T) (hcs : ∀ c ∈ cs, c.InRange m n) (hrun : run m n cs = .ok s)
    (i j : Int) (hi0 : 0 ≤ i) (hi1 : i < m) (hj0 : 0 ≤ j) (hj1 : j < n)
    (hfresh : ∀ c ∈ cs, ¬ (c.i = i ∧ c.j = j)) :
    ∃ e, s.Get i j = .ok e ∧ e.IsEmpty = true ∧ e.V = 0 := by
  obtain ⟨_, rfl⟩ := run_ok_iff m n cs s hrun
  exact ⟨Entry.ofCoord i j, SparseMatrix.Get_new m n i j hi0 hi1 hj0 hj1, rfl, rfl⟩

theorem C4_get_never_set_witness :
    run 2 2 ([] : List (Call Int)) = .ok (SparseMatrix.new 2 2) ∧
    ∃ e, (SparseMatrix.new 2 2 : SparseMatrix Int).Get 0 0 = .ok e ∧
      e.IsEmpty = true ∧ e.V = 0 :=
  ⟨rfl, C4_get_never_set 2 2 [] (SparseMatrix.new 2 2) (by simp) rfl 0 0 (by decide) (by decide)
    (by decide) (by decide) (by simp)⟩

/-- C5 (the code departs from the claim). In the well-formed CSR state
`a_ = [(1, 0, 5)]`, `ia_ = [0, 0, 1]`, `ja_ = [0]` of a `2 × 1` matrix, the
in-range coordinate `(0, 0)` has no stored entry, and `Set(0, 0, 7)` returns
with `a_` and `ja_` still of length one. Built through the constructor, the
same two calls do not get that far: the first `Set` already ends in the read
of `ja_` past its end, with nothing stored. -/
theorem C5_fresh_set_does_not_grow :
    ¬ rowOneState.Stored 0 0 ∧
    rowOneState.a_.length = 1 ∧
    (∃ s, rowOneState.Set 0 0 7 = .ok s ∧ s.a_.length = 1 ∧ s.ja_.length = 1) ∧
    (SparseMatrix.new 2 1 : SparseMatrix Int).Set 1 0 5 = .error Error.undefinedRead :=
  ⟨rowOneState_not_stored, rfl, ⟨rowOneState, rfl, rfl, rfl⟩, rfl⟩

/-- C7. On a matrix of dimensions `m × n` produced from `SparseMatrix(m, n)`
by `Set` calls with in-range coordinates, `Get(i, j)` raises the out-of-range
error exactly when `i < 0`, `i ≥ m`, `j < 0` or `j ≥ n`, and for in-range
coordinates it returns an entry. -/
theorem C7_get_out_of_range_iff {T : Type} [Zero T] (m n : Int) (cs : List (Call T))
    (s : SparseMatrix T) (hcs : ∀ c ∈ cs, c.InRange m n) (hrun : run m n cs = .ok s)
    (i j : Int) :
    (s.Get i j = .error Error.outOfRange ↔ (i < 0 ∨ i ≥ m ∨ j < 0 ∨ j ≥ n)) ∧
    (0 ≤ i → i < m → 0 ≤ j → j < n → ∃ e, s.Get i j = .ok e) := by
  obtain ⟨_, rfl⟩ := run_ok_iff m n cs s hrun
  have hin : 0 ≤ i → i < m → 0 ≤ j → j < n →
      ∃ e, (SparseMatrix.new m n : SparseMatrix T).Get i j = .ok e :=
    fun hi0 hi1 hj0 hj1 => ⟨_, SparseMatrix.Get_new m n i j hi0 hi1 hj0 hj1⟩
  refine ⟨⟨?_, ?_⟩, hin⟩
  · intro herr
    by_contra hne
    obtain ⟨e, he⟩ := hin (by omega) (by omega) (by omega) (by omega)
    rw [he] at herr
    exact Except.noConfusion herr
  · intro hout
    have : i < 0 ∨ i ≥ (SparseMatrix.new m n : SparseMatrix T).m_ ∨ j < 0 ∨
        j ≥ (SparseMatrix.new m n : SparseMatrix T).n_ := hout
    simp only [SparseMatrix.Get, this, if_true]

theorem C7_get_out_of_range_iff_witness :
    run 2 2 ([] : List (Call Int)) = .ok (SparseMatrix.new 2 2) ∧
    ((SparseMatrix.new 2 2 : SparseMatrix Int).Get 1 0 = .error Error.outOfRange ↔
      ((1 : Int) < 0 ∨ (1 : Int) ≥ 2 ∨ (0 : Int) < 0 ∨ (0 : Int) ≥ 2)) ∧
    ((0 : Int) ≤ 1 → (1 : Int) < 2 → (0 : Int) ≤ 0 → (0 : Int) < 2 →
      ∃ e, (SparseMatrix.new 2 2 : SparseMatrix Int).Get 1 0 = .ok e) :=
  ⟨rfl, C7_get_out_of_range_iff 2 2 [] (SparseMatrix.new 2 2) (by simp) rfl 1 0⟩

/-! ## The driver -/

theorem sumRanks_eq_sum (ranks : List ℚ) : sumRanks ranks = ranks.sum := by
  rw [sumRanks, List.sum_eq_foldl]

theorem scatter_getElem? (c : ℚ) (is : List Nat) (acc : List ℚ) (k : Nat) :
    (is.foldl (fun acc i => acc.modify (fun x => x + c) i) acc)[k]? =
      (acc[k]?).map (fun x => x + (is.count k : ℚ) * c) := by
  induction is generalizing acc with
  | nil => simp
  | cons i is ih =>
    rw [List.foldl_cons, ih, List.getElem?_modify, List.count_cons]
    cases acc[k]? with
    | none => simp
    | some x =>
      simp only [Option.map_eq_map, Option.map_some', Option.some.injEq, beq_iff_eq]
      split_ifs <;> push_cast <;> ring

theorem count_outNeighbors (W : Transition) (j k : Nat) :
    (W.outNeighbors j).count k = if k < W.n ∧ (W.weight j k).isSome then 1 else 0 := by
  have hnd : (W.outNeighbors j).Nodup := (List.nodup_range W.n).filter _
  by_cases hmem : k ∈ W.outNeighbors j
  · rw [List.count_eq_one_of_mem hnd hmem]
    simp only [Transition.outNeighbors, List.mem_filter, List.mem_range] at hmem
    simp [hmem]
  · rw [List.count_eq_zero.2 hmem]
    simp only [Transition.outNeighbors, List.mem_filter, List.mem_range] at hmem
    simp [hmem]

theorem pushFrom_getElem? (W : Transition) (r : List ℚ) (d : ℚ) (acc : List ℚ) (j k : Nat) :
    (pushFrom W r d acc j)[k]? =
      (acc[k]?).map (fun x => x + ((W.outNeighbors j).count k : ℚ) *
        (d * r.getD j 0 / W.OutDegree j)) := by
  rw [pushFrom, scatter_getElem?]

theorem pushAll_getElem? (W : Transition) (r : List ℚ) (d : ℚ) (js : List Nat)
    (acc : List ℚ) (k : Nat) :
    (js.foldl (pushFrom W r d) acc)[k]? =
      (acc[k]?).map (fun x => x + (js.map (fun j => ((W.outNeighbors j).count k : ℚ) *
        (d * r.getD j 0 / W.OutDegree j))).sum) := by
  induction js generalizing acc with
  | nil => simp
  | cons j js ih =>
    rw [List.foldl_cons, ih, pushFrom_getElem?]
    cases acc[k]? with
    | none => simp
    | some x =>
      simp only [Option.map_some', Option.some.injEq, List.map_cons, List.sum_cons]
      ring

theorem sum_filterMap (l : List Nat) (f : Nat → Option ℚ) :
    (l.filterMap f).sum = (l.map (fun x => (f x).getD 0)).sum := by
  induction l with
  | nil => simp
  | cons a l ih =>
    rw [List.filterMap_cons]
    cases h : f a with
    | none => simp [h, ih]
    | some b => simp [h, ih]

/-- C8 (the code departs from the claim). With the style `"push"`, on an
engine that records the updates applied and asks for more until four were
made, the driver applies `PushUpdate` twice and then, inside the convergence
loop, `PullUpdate` twice. -/
theorem C8_loop_applies_pull_for_push :
    drive traceEngine 2 "push" (85 / 100) [] =
      some (3, 4, ["PushUpdate", "PushUpdate", "PullUpdate", "PullUpdate"]) := by
  decide

/-- C9. When the entries of the rank vector sum to a nonzero `s` (their
sum as a list, which is what the summing loop of `main` computes), the final
normalization keeps the length, replaces every entry `r[k]` by `r[k] / s`,
and the entries of the result sum to exactly one (in exact rational
arithmetic). -/
theorem C9_normalization_unit_sum (ranks : List ℚ) (hs : ranks.sum ≠ 0) :
    sumRanks ranks = ranks.sum ∧
    (normalizeRanks ranks).length = ranks.length ∧
    (∀ k : Nat, (normalizeRanks ranks)[k]? = (ranks[k]?).map (fun x => x / ranks.sum)) ∧
    (normalizeRanks ranks).sum = 1 := by
  refine ⟨sumRanks_eq_sum ranks, by simp [normalizeRanks], fun k => ?_, ?_⟩
  · simp [normalizeRanks, sumRanks_eq_sum]
  · rw [normalizeRanks, sumRanks_eq_sum]
    simp only [div_eq_mul_inv]
    rw [List.sum_map_mul_right, List.map_id']
    exact mul_inv_cancel₀ hs

theorem C9_normalization_unit_sum_witness :
    [(1 / 4 : ℚ), 1 / 2, 3].sum ≠ 0 ∧
    (sumRanks [1 / 4, 1 / 2, 3] = [(1 / 4 : ℚ), 1 / 2, 3].sum ∧
    (normalizeRanks [1 / 4, 1 / 2, 3]).length = [(1 / 4 : ℚ), 1 / 2, 3].length ∧
    (∀ k : Nat, (normalizeRanks [1 / 4, 1 / 2, 3])[k]? =
      ([(1 / 4 : ℚ), 1 / 2, 3][k]?).map (fun x => x / [(1 / 4 : ℚ), 1 / 2, 3].sum)) ∧
    (normalizeRanks [1 / 4, 1 / 2, 3]).sum = 1) :=
  ⟨by norm_num, C9_normalization_unit_sum [1 / 4, 1 / 2, 3] (by norm_num)⟩

/-- C10 as stated fails on the modelled updates: on the weighted two-node
matrix `weightedExample`, with the rank vector `[1/2, 1/2]` and `d = 1/2`,
`PullUpdate` gives `[7/12, 5/12]` and `PushUpdate` gives `[5/8, 3/8]`. -/
theorem C10_pull_push_differ_on_weighted :
    PullUpdate weightedExample [1 / 2, 1 / 2] (1 / 2) = [7 / 12, 5 / 12] ∧
    PushUpdate weightedExample [1 / 2, 1 / 2] (1 / 2) = [5 / 8, 3 / 8] ∧
    PullUpdate weightedExample [1 / 2, 1 / 2] (1 / 2) ≠
      PushUpdate weightedExample [1 / 2, 1 / 2] (1 / 2) := by
  have h1 : PullUpdate weightedExample [1 / 2, 1 / 2] (1 / 2) = [7 / 12, 5 / 12] := by
    simp [PullUpdate, weightedExample, List.range_succ]
    norm_num
  have h2 : PushUpdate weightedExample [1 / 2, 1 / 2] (1 / 2) = [5 / 8, 3 / 8] := by
    simp [PushUpdate, pushFrom, Transition.outNeighbors, Transition.OutDegree, weightedExample,
      List.range_succ, List.filter]
    norm_num
  refine ⟨h1, h2, ?_⟩
  rw [h1, h2]
  norm_num

/-- C10 (amended). For every transition matrix in which each stored weight
on an edge `j → i` is `1 / OutDegree(j)`, every rank vector and every
dampening factor `d`, `PullUpdate(d)` and `PushUpdate(d)` give equal rank
vectors, in exact rational arithmetic. -/
theorem C10_pull_push_equal_on_uniform (W : Transition) (r : List ℚ) (d : ℚ)
    (hW : W.Uniform) : PullUpdate W r d = PushUpdate W r d := by
  apply List.ext_getElem?
  intro k
  rw [PullUpdate, PushUpdate, List.getElem?_map, List.getElem?_map, pushAll_getElem?,
    List.getElem?_replicate]
  by_cases hk : k < W.n
  · rw [List.getElem?_range hk]
    simp only [hk, if_true, Option.map_some', Option.some.injEq, zero_add]
    rw [sum_filterMap, ← List.sum_map_mul_left, add_comm]
    congr 1
    apply congrArg
    apply List.map_congr_left
    intro j hj
    rw [List.mem_range] at hj
    rw [count_outNeighbors]
    cases hw : W.weight j k with
    | none => simp
    | some w =>
      have := hW j k w hj hk hw
      subst this
      simp only [hk, Option.isSome_some, and_self, if_true, Option.map_some', Option.getD_some]
      push_cast
      ring
  · rw [List.getElem?_eq_none (by simp; omega)]
    simp [hk]

theorem uniformExample_uniform : uniformExample.Uniform := by
  intro j i w hj hi hw
  have hj' : j < 3 := hj
  have hi' : i < 3 := hi
  interval_cases j <;> interval_cases i <;>
    simp [uniformExample, Transition.OutDegree, Transition.outNeighbors, List.range_succ,
      List.filter] at hw ⊢ <;>
    exact hw.symm

theorem C10_pull_push_equal_on_uniform_witness :
    uniformExample.Uniform ∧
    PullUpdate uniformExample [1 / 2, 1 / 4, 1 / 4] (85 / 100) =
      PushUpdate uniformExample [1 / 2, 1 / 4, 1 / 4] (85 / 100) :=
  ⟨uniformExample_uniform,
    C10_pull_push_equal_on_uniform uniformExample [1 / 2, 1 / 4, 1 / 4] (85 / 100)
      uniformExample_uniform⟩


/-! ## Claims about `Entry` -/

/-- C11 (the code departs from the claim). The accessor `J()` returns the row
field: on `Entry(0, 1)` and on `Entry(0, 1, 5)`, whose column field is 1, it
returns 0, the value of `I()`. -/
theorem C11_column_accessor_returns_row :
    (Entry.ofCoord 0 1 : Entry Int).I = 0 ∧
    (Entry.ofCoord 0 1 : Entry Int).j_ = 1 ∧
    (Entry.ofCoord 0 1 : Entry Int).J = 0 ∧
    (Entry.ofValue 0 1 (5 : Int)).I = 0 ∧
    (Entry.ofValue 0 1 (5 : Int)).j_ = 1 ∧
    (Entry.ofValue 0 1 (5 : Int)).J = 0 := by
  refine ⟨rfl, rfl, rfl, rfl, rfl, rfl⟩

/-- C12. The invariant `IsEmpty() implies V() = zero` holds for the entries
of both constructors and is kept by `SetEmpty` and `SetV`; a mutator call that
turns an empty entry into a non-empty one is a call of `SetV`; and `SetV(v)`
gives a non-empty entry with value `v`, whatever `v` is. -/
theorem C12_entry_emptiness_invariant {T : Type} [Zero T] (i j : Int) (v : T) (e : Entry T)
    (op : EntryOp T) :
    (Entry.ofCoord i j : Entry T).Inv ∧
    (Entry.ofValue i j v).Inv ∧
    (e.Inv → e.SetEmpty.Inv) ∧
    (e.Inv → (e.SetV v).Inv) ∧
    (e.IsEmpty = true → (op.apply e).IsEmpty = false → ∃ w, op = EntryOp.setV w) ∧
    (e.SetV v).IsEmpty = false ∧
    (e.SetV v).V = v := by
  refine ⟨fun _ => rfl, ?_, fun _ _ => rfl, ?_, ?_, rfl, rfl⟩
  · intro h
    exact absurd h (by simp [Entry.IsEmpty, Entry.ofValue])
  · intro _ h
    exact absurd h (by simp [Entry.IsEmpty, Entry.SetV])
  · intro _ h
    cases op with
    | setEmpty => exact absurd h (by simp [EntryOp.apply, Entry.IsEmpty, Entry.SetEmpty])
    | setV w => exact ⟨w, rfl⟩

/-! ## Claims about `main` -/

theorem parseLoop_append_aux (stod : String → Option ℚ) (n : Nat) :
    ∀ (pre : List String), pre.length ≤ n →
      ∀ (a a1 : Args) (tail : List String), parseLoop stod a pre = Parsed.done a1 →
        parseLoop stod a (pre ++ tail) = parseLoop stod a1 tail := by
  induction n with
  | zero =>
    intro pre hlen a a1 tail h
    have : pre = [] := List.length_eq_zero.1 (by omega)
    subst this
    simp only [parseLoop, Parsed.done.injEq] at h
    subst h
    rfl
  | succ n ih =>
    intro pre hlen a a1 tail h
    match pre, hlen, h with
    | [], _, h =>
      simp only [parseLoop, Parsed.done.injEq] at h
      subst h
      rfl
    | [opt], _, h =>
      simp only [parseLoop] at h
      split_ifs at h
    | opt :: v :: rest, hlen, h =>
      have hrest : rest.length ≤ n := by simp at hlen; omega
      simp only [parseLoop, List.cons_append] at h ⊢
      split_ifs at h ⊢ with h1 h2 h3 h4 h5
      · exact ih rest hrest _ _ _ h
      · exact ih rest hrest _ _ _ h
      · exact ih rest hrest _ _ _ h
      · cases hd : stod v with
        | none => simp [hd] at h
        | some d =>
          simp only [hd] at h ⊢
          exact ih rest hrest _ _ _ h

/-- Arguments that the loop consumes completely are followed by the parse of
what comes after them. -/
theorem parseLoop_append (stod : String → Option ℚ) (pre tail : List String) (a a1 : Args)
    (h : parseLoop stod a pre = Parsed.done a1) :
    parseLoop stod a (pre ++ tail) = parseLoop stod a1 tail :=
  parseLoop_append_aux stod pre.length pre (le_refl _) a a1 tail h

/-- C13. When the argument loop reaches a `--style` option (the arguments
`pre` before it are consumed completely) whose value is neither `"pull"` nor
`"push"`, `main` ends with the usage exit: it returns `EXIT_FAILURE` and has
not reached the call of `InitGraph`, hence has made no update. -/
theorem C13_invalid_style_rejected {σ : Type} (stod : String → Option ℚ)
    (InitGraph : String → String → Option σ) (E : Engine σ (List ℚ))
    (PageRanks : σ → List ℚ) (fuel : Nat) (prog : String) (pre rest : List String)
    (v : String) (a1 : Args)
    (hpre : parseLoop stod { filename := "", filefmt := "", style := "", d := 85 / 100 } pre
      = Parsed.done a1)
    (hpull : v ≠ "pull") (hpush : v ≠ "push") :
    main stod InitGraph E PageRanks fuel (prog :: (pre ++ "--style" :: v :: rest))
      = Outcome.usageExit ∧
    (main stod InitGraph E PageRanks fuel (prog :: (pre ++ "--style" :: v :: rest))).exitCode
      = some EXIT_FAILURE ∧
    (main stod InitGraph E PageRanks fuel (prog :: (pre ++ "--style" :: v :: rest))).reachedInit
      = false := by
  have hparse : parseLoop stod { filename := "", filefmt := "", style := "", d := 85 / 100 }
      (pre ++ "--style" :: v :: rest) = Parsed.usage := by
    rw [parseLoop_append stod pre _ _ a1 hpre]
    simp [parseLoop, hpull, hpush]
  have hmain : main stod InitGraph E PageRanks fuel (prog :: (pre ++ "--style" :: v :: rest))
      = Outcome.usageExit := by
    simp only [main, List.tail_cons, hparse]
  rw [hmain]
  exact ⟨rfl, rfl, rfl⟩

theorem C13_invalid_style_rejected_witness :
    ("both" ≠ "pull" ∧ "both" ≠ "push") ∧
    main (fun _ => none) (fun _ _ => some []) traceEngineQ (fun _ => []) 10
      ["pagerank", "--filename", "g.txt", "--style", "both", "--fmt", "dimacs"]
      = Outcome.usageExit ∧
    (main (fun _ => none) (fun _ _ => some []) traceEngineQ (fun _ => []) 10
      ["pagerank", "--filename", "g.txt", "--style", "both", "--fmt", "dimacs"]).exitCode
      = some EXIT_FAILURE ∧
    (main (fun _ => none) (fun _ _ => some []) traceEngineQ (fun _ => []) 10
      ["pagerank", "--filename", "g.txt", "--style", "both", "--fmt", "dimacs"]).reachedInit
      = false :=
  ⟨⟨by decide, by decide⟩,
    C13_invalid_style_rejected (fun _ => none) (fun _ _ => some []) traceEngineQ (fun _ => []) 10
      "pagerank" ["--filename", "g.txt"] ["--fmt", "dimacs"] "both"
      { filename := "g.txt", filefmt := "", style := "", d := 85 / 100 }
      (by simp [parseLoop]) (by decide) (by decide)⟩


/-! ## Further claims about `SparseMatrix` -/

/-- C14 (the code departs from the claim). On the freshly constructed
`SparseMatrix(1, 1)`, whose `ja_` is empty, `Set(0, 0, v)` reads `ja_` at
position 0: the test `if (ja_[pos] != j)` after the first loop reads
`ja_[ia_[1]]`, one past the end, and the call ends there. -/
theorem C14_set_reads_past_end (v : Int) :
    (SparseMatrix.new 1 1 : SparseMatrix Int).ja_.length = 0 ∧
    SparseMatrix.SetReadsJA (SparseMatrix.new 1 1 : SparseMatrix Int) 0 0 = [0] ∧
    ¬ (∀ pos ∈ SparseMatrix.SetReadsJA (SparseMatrix.new 1 1 : SparseMatrix Int) 0 0,
        pos < (SparseMatrix.new 1 1 : SparseMatrix Int).ja_.length) ∧
    (SparseMatrix.new 1 1 : SparseMatrix Int).Set 0 0 v = .error Error.undefinedRead := by
  have h : SparseMatrix.SetReadsJA (SparseMatrix.new 1 1 : SparseMatrix Int) 0 0 = [0] := rfl
  refine ⟨rfl, h, ?_, rfl⟩
  rw [h]
  simp [SparseMatrix.new]

theorem loopBody_logged {σ V : Type} (E : Engine σ V) (d : ℚ) (r1 r2 : V) (pr : σ)
    (log : List V) :
    loopBody (logged E) d (r1, r2, (pr, log)) =
      ((loopBody E d (r1, r2, pr)).1, (loopBody E d (r1, r2, pr)).2.1,
        ((loopBody E d (r1, r2, pr)).2.2,
          log ++ [(loopBody E d (r1, r2, pr)).1, (loopBody E d (r1, r2, pr)).2.1])) := by
  simp [loopBody, logged]

theorem initialPair_logged {σ V : Type} (E : Engine σ V) (style : String) (d : ℚ) (pr : σ) :
    initialPair (logged E) style d (pr, []) =
      ((initialPair E style d pr).1, (initialPair E style d pr).2.1,
        ((initialPair E style d pr).2.2,
          [(initialPair E style d pr).1, (initialPair E style d pr).2.1])) := by
  by_cases h : style = "pull" <;> simp [initialPair, selectUpdate, logged, h]

/-- C16 as stated fails: on `traceEngine`, whose rank vector is the number of
updates made so far, the driver starts the loop with `r1 = 1`, `r2 = 2`, and
one execution of the loop body gives `r1 = 3`, `r2 = 4`: it applied two
updates, and the new `r1` is not the previous `r2`. -/
theorem C16_body_applies_two_updates :
    initialPair traceEngine "push" (85 / 100) [] = (1, 2, ["PushUpdate", "PushUpdate"]) ∧
    loopBody traceEngine (85 / 100) (1, 2, ["PushUpdate", "PushUpdate"]) =
      (3, 4, ["PushUpdate", "PushUpdate", "PullUpdate", "PullUpdate"]) ∧
    (loopBody traceEngine (85 / 100) (1, 2, ["PushUpdate", "PushUpdate"])).1 ≠ 2 := by
  decide

/-- C16 (amended). The driver is the convergence loop started on the initial
pair, and each turn of the loop tests `Progress` and then runs the loop body.
Each execution of the body makes exactly two updates, after which `r1` and
`r2` are the two vectors it produced, in that order: with every produced
vector recorded, after `t` executions of the body the record consists of `2 t`
older vectors followed by `r1` and `r2`, so that every convergence check
compares the two most recently produced vectors. Recording changes neither
the vectors nor the engine state. -/
theorem C16_pair_advances_two_generations {σ V : Type} (E : Engine σ V) (style : String)
    (d : ℚ) (pr : σ) (t : Nat) :
    (∀ fuel : Nat, drive E fuel style d pr =
      convergenceLoop E d fuel (initialPair E style d pr).1 (initialPair E style d pr).2.1
        (initialPair E style d pr).2.2) ∧
    (∀ (fuel : Nat) (r1 r2 : V) (s : σ), convergenceLoop E d (fuel + 1) r1 r2 s =
      if E.Progress r1 r2 THRESHOLD then
        convergenceLoop E d fuel (loopBody E d (r1, r2, s)).1 (loopBody E d (r1, r2, s)).2.1
          (loopBody E d (r1, r2, s)).2.2
      else some (r1, r2, s)) ∧
    ((loopBody (logged E) d)^[t] (initialPair (logged E) style d (pr, []))).1 =
      ((loopBody E d)^[t] (initialPair E style d pr)).1 ∧
    ((loopBody (logged E) d)^[t] (initialPair (logged E) style d (pr, []))).2.1 =
      ((loopBody E d)^[t] (initialPair E style d pr)).2.1 ∧
    ((loopBody (logged E) d)^[t] (initialPair (logged E) style d (pr, []))).2.2.1 =
      ((loopBody E d)^[t] (initialPair E style d pr)).2.2 ∧
    ∃ older : List V, older.length = 2 * t ∧
      ((loopBody (logged E) d)^[t] (initialPair (logged E) style d (pr, []))).2.2.2 =
        older ++ [((loopBody E d)^[t] (initialPair E style d pr)).1,
          ((loopBody E d)^[t] (initialPair E style d pr)).2.1] := by
  refine ⟨fun _ => rfl, fun _ _ _ _ => rfl, ?_⟩
  induction t with
  | zero =>
    simp only [Function.iterate_zero, id_eq]
    rw [initialPair_logged]
    exact ⟨rfl, rfl, rfl, [], rfl, rfl⟩
  | succ t ih =>
    obtain ⟨h1, h2, h3, older, hlen, hlog⟩ := ih
    rw [Function.iterate_succ_apply', Function.iterate_succ_apply']
    generalize (loopBody (logged E) d)^[t] (initialPair (logged E) style d (pr, [])) = L
      at h1 h2 h3 hlog ⊢
    generalize (loopBody E d)^[t] (initialPair E style d pr) = R at h1 h2 h3 hlog ⊢
    obtain ⟨l1, l2, ls, llog⟩ := L
    obtain ⟨x1, x2, xs⟩ := R
    simp only at h1 h2 h3 hlog
    subst h1 h2 h3
    rw [loopBody_logged]
    refine ⟨rfl, rfl, rfl, older ++ [l1, l2], ?_, ?_⟩
    · simp [hlen]; omega
    · simp only [hlog, List.append_assoc]


/-! ## Other coordinates and duplicates -/

end PageRank
